import Mathlib

/-!
Shallow embedding of the tag-assignment and source-patch engine of
`packages/typegen/src/gdesc/write/inline.ts`.

Conventions of the embedding:
* JS strings are modelled as `String` / `List Char`; positions are character counts.
* Fallible JS code (thrown `TypeError` on `undefined` dereference, failed
  `assert`) is modelled with `Option` / `Except`.
* The external TypeScript printer (`ts.createPrinter`, used by `tsPrettify`) is a
  collaborator outside the repository; definitions that call it take it as a
  function parameter.
-/

set_option linter.unusedVariables false

namespace Typegen

/-- Modelled from JS `String.prototype.includes` (receiver first): substring test. -/
def jsIncludes (hay needle : List Char) : Bool :=
  match hay with
  | [] => needle.isEmpty
  | _ :: t => needle.isPrefixOf hay || jsIncludes t needle

/-- Modelled from JS `String.prototype.split` with a one-character separator. -/
def splitOnChar (sep : Char) : List Char → List (List Char)
  | [] => [[]]
  | c :: cs =>
    match splitOnChar sep cs with
    | [] => [[]]
    | r :: rs => if c = sep then [] :: r :: rs else (c :: r) :: rs

/-- Whitespace characters recognised by JS `trim` (the common ASCII ones). -/
def isJsSpace (c : Char) : Bool :=
  c == ' ' || c == '\n' || c == '\t' || c == '\r' || c == '\x0b' || c == '\x0c'

/-- Modelled from JS `String.prototype.trim`. -/
def jsTrim (s : List Char) : List Char :=
  ((s.dropWhile isJsSpace).reverse.dropWhile isJsSpace).reverse

/-- Modelled from JS `Array.prototype.join`. -/
def joinSep (sep : List Char) : List (List Char) → List Char
  | [] => []
  | [x] => x
  | x :: xs => x ++ sep ++ joinSep sep xs

/-- Modelled from JS `String.prototype.replace` with a plain string pattern:
replaces the first occurrence only. -/
def replaceFirst (pat repl : List Char) : List Char → List Char
  | [] => []
  | c :: rest =>
    if pat.isPrefixOf (c :: rest) then repl ++ (c :: rest).drop pat.length
    else c :: replaceFirst pat repl rest

/-- The `jsdocComment` helper of inline.ts: filters out the non-string lines,
joins with blank lines, trims, prefixes every line with a star, and wraps in a
block or single-line JSDoc comment. -/
def jsdocComment (lines : List (Option String)) : String :=
  let middle : List Char :=
    joinSep ['\n']
      ((splitOnChar '\n'
          (jsTrim (joinSep ['\n', '\n'] ((lines.filterMap id).map String.data)))).map
        (fun line => '*' :: ' ' :: line))
  if middle.contains '\n' then
    String.mk ("/**\n".data ++ middle ++ "\n*/".data)
  else
    String.mk (replaceFirst "* *".data "*".data ("/** ".data ++ middle ++ " */".data))

/-- Modelled from the spec: `simplifyWhitespace` of the (not included) util
module, whitespace normalisation of query text - runs of whitespace collapse to
one space. -/
def collapseWs : List Char → List Char
  | [] => []
  | c :: cs =>
    let r := collapseWs cs
    if isJsSpace c then
      match r with
      | ' ' :: _ => r
      | _ => ' ' :: r
    else c :: r

/-- Modelled from the spec: whitespace-normalised query text. -/
def simplifyWhitespace (s : String) : String := String.mk (jsTrim (collapseWs s.data))

/-- Modelled from the spec: `truncate` of the (not included) util module,
length-truncation of query text (lodash default: 30 chars with a `...` omission). -/
def truncate (s : String) : String :=
  if s.length ≤ 30 then s else String.mk (s.data.take 27 ++ "...".data)

/-- The `jsdocQuery` pipeline of inline.ts: `lodash.flow(simplifyWhitespace, truncate)`. -/
def jsdocQuery (s : String) : String := truncate (simplifyWhitespace s)

/-- Modelled from JS `JSON.stringify` escaping of one character inside a string
literal (quote, backslash and the common control characters). -/
def jsonEscapeChar (c : Char) : List Char :=
  if c = '"' then ['\\', '"']
  else if c = '\\' then ['\\', '\\']
  else if c = '\n' then ['\\', 'n']
  else if c = '\t' then ['\\', 't']
  else if c = '\r' then ['\\', 'r']
  else [c]

/-- Modelled from JS `JSON.stringify` applied to a string. -/
def jsonStr (s : String) : String :=
  String.mk ('"' :: (s.data.flatMap jsonEscapeChar) ++ ['"'])

/-- Modelled from the spec (3. DATA MODEL): one output field of a query. The
declaring module `gdesc/types` is not part of the included sources; fields are
used by inline.ts exactly with these members. -/
structure Field where
  name : String
  typescript : String
  notNull : Bool
  column : Option String
  gdesc : Option String
  comment : Option String
deriving DecidableEq

/-- Modelled from the spec (3. DATA MODEL): an analysed query as consumed by
inline.ts (`file`, `sql`, `text`, `fields`, `suggestedTags`, `comment`). -/
structure AnalysedQuery where
  file : String
  sql : String
  text : String
  fields : List Field
  suggestedTags : List String
  comment : Option String
deriving DecidableEq

/-- Modelled from JS `JSON.stringify` of a field object: properties in
declaration order, `undefined` (`none`) properties omitted. -/
def stringifyField (f : Field) : String :=
  "\x7b" ++
    String.intercalate ","
      (([some ("\"name\":" ++ jsonStr f.name),
         some ("\"typescript\":" ++ jsonStr f.typescript),
         some ("\"notNull\":" ++ (if f.notNull then "true" else "false")),
         f.column.map (fun c => "\"column\":" ++ jsonStr c),
         f.gdesc.map (fun g => "\"gdesc\":" ++ jsonStr g),
         f.comment.map (fun c => "\"comment\":" ++ jsonStr c)]).filterMap id) ++
  "\x7d"

/-- The Identifier of a query result shape: `JSON.stringify(q.fields)` in `addTags`. -/
def stringifyFields (fs : List Field) : String :=
  "[" ++ String.intercalate "," (fs.map stringifyField) ++ "]"

/-- A query together with its computed `identifier` (first step of `addTags`). -/
structure WithIdentifier extends AnalysedQuery where
  identifier : String
deriving DecidableEq

/-- One candidate record of the `addTags` chain: the query spread together with
one suggested `tag` and the full list of `alternatives`. -/
structure Candidate extends WithIdentifier where
  tag : String
  alternatives : List String
deriving DecidableEq

/-- A candidate after collision resolution: `tag` possibly suffixed, plus `priority`. -/
structure ResolvedCandidate extends Candidate where
  priority : Nat
deriving DecidableEq

/-- The `TaggedQuery` of inline.ts: the query spread together with its resolved tag. -/
structure TaggedQuery extends WithIdentifier where
  tag : String
deriving DecidableEq

/-- Insertion step of the stable ascending sort (equal keys keep input order). -/
def insertSorted (k : α → Int) (x : α) : List α → List α
  | [] => [x]
  | y :: ys => if k x ≤ k y then x :: y :: ys else y :: insertSorted k x ys

/-- Modelled from lodash `sortBy` with one iteratee: stable ascending sort by an
integer key. -/
def sortOn (k : α → Int) : List α → List α
  | [] => []
  | x :: xs => insertSorted k x (sortOn k xs)

/-- Helper of `uniqBy`: keeps the first element for every key value. -/
def uniqByAux (k : α → String) (seen : List String) : List α → List α
  | [] => []
  | x :: xs =>
    if seen.contains (k x) then uniqByAux k seen xs
    else x :: uniqByAux k (k x :: seen) xs

/-- Modelled from lodash `uniqBy`: keeps the first element for every key value. -/
def uniqBy (k : α → String) (l : List α) : List α := uniqByAux k [] l

/-- First-appearance-ordered distinct strings (key order of lodash `groupBy`). -/
def dedupStrings (l : List String) : List String := uniqBy id l

/-- First stage of `addTags`: attach `identifier = JSON.stringify(q.fields)`. -/
def withIdentifiers (queries : List AnalysedQuery) : List WithIdentifier :=
  queries.map fun q => { toAnalysedQuery := q, identifier := stringifyFields q.fields }

/-- The `flatMap` stage of `addTags`: one candidate per suggested tag, carrying
all the alternatives of its query. -/
def tagCandidates (queries : List AnalysedQuery) : List Candidate :=
  (withIdentifiers queries).flatMap fun q =>
    q.suggestedTags.map fun tag =>
      { toWithIdentifier := q, tag := tag, alternatives := q.suggestedTags }

/-- The `sortBy(q => q.alternatives.length)` stage of `addTags`. -/
def sortedCandidates (queries : List AnalysedQuery) : List Candidate :=
  sortOn (fun c => (c.alternatives.length : Int)) (tagCandidates queries)

/-- The `firstWithTagIndex` lookup of the collision-resolution `map` step of
`addTags`: the index of the first candidate of `arr` whose (original) tag
equals the tag of `q`. -/
def firstWithTagIndex (arr : List Candidate) (q : Candidate) : Nat :=
  arr.findIdx fun o => o.tag == q.tag

/-- The collision-resolution `map` step of `addTags`, for one candidate `q` of
the sorted array `arr`. In inline.ts a missing first occurrence would give index
-1 and a false comparison against `undefined`; for elements of `arr` the lookup
always succeeds, so the `none` branch is unreachable in use. -/
def resolveOne (arr : List Candidate) (q : Candidate) : ResolvedCandidate :=
  let matchesFirstTag :=
    match arr[firstWithTagIndex arr q]? with
    | some o => o.identifier == q.identifier
    | none => false
  { toCandidate :=
      { q with tag := if matchesFirstTag then q.tag
                      else q.tag ++ "_" ++ toString (firstWithTagIndex arr q) },
    priority := if matchesFirstTag then 0 else 1 }

/-- The mapped candidate array of `addTags` (the callback ignores its index
argument, so the step is a plain map with the whole sorted array in scope). -/
def resolvedCandidates (queries : List AnalysedQuery) : List ResolvedCandidate :=
  (sortedCandidates queries).map (resolveOne (sortedCandidates queries))

/-- The final `sortBy(priority) / uniqBy(identifier) / keyBy(identifier)` stages
of `addTags`; lookup by identifier is `find?` on this deduplicated list. -/
def tagMap (queries : List AnalysedQuery) : List ResolvedCandidate :=
  uniqBy (fun r => r.identifier)
    (sortOn (fun r => (r.priority : Int)) (resolvedCandidates queries))

/-- The final lookup `tagMap[q.identifier].tag` over all queries; a missing map
entry is a thrown `TypeError` in JS, modelled as `none`. -/
def addTagsLookup (tm : List ResolvedCandidate) : List WithIdentifier → Option (List TaggedQuery)
  | [] => some []
  | q :: qs =>
    match tm.find? (fun r => r.identifier == q.identifier) with
    | none => none
    | some r => (addTagsLookup tm qs).map fun rest => { toWithIdentifier := q, tag := r.tag } :: rest

/-- The `addTags` function of inline.ts. -/
def addTags (queries : List AnalysedQuery) : Option (List TaggedQuery) :=
  addTagsLookup (tagMap queries) (withIdentifiers queries)

/-- The `groupBy(q => q.file)` stage of `writeTypeScriptFiles`: groups in
first-appearance key order, each group in input order. -/
def groupByFile (queries : List AnalysedQuery) : List (String × List AnalysedQuery) :=
  (dedupStrings (queries.map (fun q => q.file))).map fun f =>
    (f, queries.filter (fun q => q.file == f))

/-- The tagging part of `writeTypeScriptFiles`: group the discovered queries by
file, then run `addTags` separately on every file group (`mapValues(addTags)`). -/
def tagQueriesByFile (queries : List AnalysedQuery) : List (String × Option (List TaggedQuery)) :=
  (groupByFile queries).map fun fg => (fg.1, addTags fg.2)

-- Concrete inputs used by counterexamples and witnesses.

/-- A one-column field named `a`. -/
def fieldA : Field :=
  { name := "a", typescript := "number", notNull := true, column := none, gdesc := none, comment := none }

/-- A one-column field named `b`. -/
def fieldB : Field :=
  { name := "b", typescript := "string", notNull := false, column := none, gdesc := none, comment := none }

/-- A one-column field named `c`. -/
def fieldC : Field :=
  { name := "c", typescript := "boolean", notNull := true, column := none, gdesc := none, comment := none }

/-- File-one query with shape `[fieldA]`, single suggested tag `M`. -/
def qA1 : AnalysedQuery :=
  { file := "f1.ts", sql := "select a", text := "sql`select a`", fields := [fieldA],
    suggestedTags := ["M"], comment := none }

/-- File-two query with shape `[fieldB]`, single suggested tag `M`. -/
def qB2 : AnalysedQuery :=
  { file := "f2.ts", sql := "select b", text := "sql`select b`", fields := [fieldB],
    suggestedTags := ["M"], comment := none }

/-- File-two query with the same shape `[fieldA]` as `qA1`, single suggested tag `M`. -/
def qA2 : AnalysedQuery :=
  { file := "f2.ts", sql := "select a2", text := "sql`select a2`", fields := [fieldA],
    suggestedTags := ["M"], comment := none }

-- Interface rendering (`interfaceBody`, `renderQueryInterface`, `queryInterfaces`).

/-- The type expression of one field in `interfaceBody`: the base type for
not-null / any / unknown fields, otherwise the parenthesised base type united
with null. -/
def fieldType (f : Field) : String :=
  if f.notNull || f.typescript == "any" || f.typescript == "unknown" then f.typescript
  else "(" ++ f.typescript ++ ") | null"

/-- The truthy entries of `Object.entries({column, 'not null', 'postgres type'})`
in `interfaceBody` (a `none` or empty-string value and a false boolean are falsy). -/
def metaEntries (f : Field) : List (String × String) :=
  (match f.column with
   | some c => if c == "" then [] else [("column", c)]
   | none => []) ++
  (if f.notNull then [("not null", "true")] else []) ++
  (match f.gdesc with
   | some g => if g == "" then [] else [("postgres type", g)]
   | none => [])

/-- The joined meta line of one field in `interfaceBody`. -/
def fieldMeta (f : Field) : String :=
  String.intercalate ", " ((metaEntries f).map fun e => e.1 ++ ": `" ++ e.2 ++ "`")

/-- One rendered field of `interfaceBody` (the template literal returned by the
`query.fields.map` callback). -/
def fieldEntry (f : Field) : String :=
  "\n          " ++ jsdocComment [f.comment, some (fieldMeta f)] ++
    "\n          " ++ jsonStr f.name ++ ": " ++ fieldType f ++ "\n        "

/-- The `interfaceBody` function of inline.ts. -/
def interfaceBody (query : AnalysedQuery) : String :=
  "\x7b\n    " ++ String.intercalate "\n" (query.fields.map fieldEntry) ++ "\n\x7d"

/-- The `renderQueryInterface` function of inline.ts. The failed
`assert.strictEqual(numBodies, 1, ...)` is modelled as `Except.error`; on the
empty group the JS destructuring `const [query, ...rest]` yields `undefined`
and the subsequent member access throws, also an error. -/
def renderQueryInterface (queryGroup : List AnalysedQuery) (interfaceName : String) :
    Except String String :=
  match queryGroup with
  | [] => .error "TypeError: cannot read properties of undefined"
  | query :: rest =>
    let comments : List (Option String) :=
      if rest.length = 0 then
        [some ("- query: `" ++ jsdocQuery query.sql ++ "`"), query.comment]
      else
        some ("queries:\n" ++
            String.intercalate "\n" ((query :: rest).map fun q => "- `" ++ jsdocQuery q.sql ++ "`"))
          :: (query :: rest).map (fun q => q.comment)
    let bodies := (query :: rest).map interfaceBody
    if (uniqBy id bodies).length = 1 then
      .ok ("\n    " ++ jsdocComment comments ++ "\n     export interface " ++
        interfaceName ++ " " ++ interfaceBody query ++ "\n  ")
    else
      .error ("Query group " ++ interfaceName ++ " produced inconsistent interface bodies: " ++
        String.intercalate "," bodies)

/-- The `groupBy(q => q.tag)` stage of `queryInterfaces`. -/
def groupByTag (group : List TaggedQuery) : List (String × List TaggedQuery) :=
  (dedupStrings (group.map (fun q => q.tag))).map fun t =>
    (t, group.filter (fun q => q.tag == t))

/-- Error-propagating map (the first thrown JS error aborts the whole batch). -/
def exceptMapM (f : α → Except ε β) : List α → Except ε (List β)
  | [] => .ok []
  | x :: xs =>
    match f x with
    | .error e => .error e
    | .ok y => (exceptMapM f xs).map (fun ys => y :: ys)

/-- The `queryInterfaces` function of inline.ts; `tsPretty` stands for the
external TypeScript printer `tsPrettify`. -/
def queryInterfaces (tsPretty : String → String) (group : List TaggedQuery) :
    Except String String :=
  (exceptMapM
      (fun tg => renderQueryInterface (tg.2.map (fun q => q.toAnalysedQuery)) tg.1)
      (groupByTag group)).map
    fun parts => tsPretty (String.intercalate "\n\n" parts)

/-- The `queriesModule` function of inline.ts. -/
def queriesModule (tsPretty : String → String) (group : List TaggedQuery) :
    Except String String :=
  (queryInterfaces tsPretty group).map fun qi =>
    "\n" ++ tsPretty ("\n    module queries \x7b\n      " ++ qi ++ "\n    \x7d\n  ")

-- The source patcher of `getFileWriter`: positional edits over the file text.

/-- One scheduled text edit of `getFileWriter` (the source calls `stop` `end`,
a reserved word here). -/
structure Edit where
  start : Nat
  stop : Nat
  replacement : List Char
deriving DecidableEq

/-- One splice `source.slice(0, e.start) + e.replacement + source.slice(e.end)`. -/
def splice (text : List Char) (e : Edit) : List Char :=
  text.take e.start ++ e.replacement ++ text.drop e.stop

/-- The edit application loop of `getFileWriter`:
`lodash.sortBy(edits, e => -e.end).forEach(splice)`. -/
def applyEdits (text : List Char) (edits : List Edit) : List Char :=
  (sortOn (fun e => -(e.stop : Int)) edits).foldl splice text

/-- A `ts.TaggedTemplateExpression` node as inspected by `visit`: whether its
tag expression is a bare identifier, the tag text, the offsets used by the
rewrite, and `node.getFullText()`. -/
structure SqlTemplateNode where
  tagIsIdentifier : Bool
  tagText : String
  tagStart : Nat
  templateStart : Nat
  fullText : String
deriving DecidableEq

/-- A node of the parsed syntax tree, as far as `visit` inspects it. -/
inductive TsNode where
  | moduleDecl (name : String) (startPos endPos : Nat)
  | taggedTemplate (n : SqlTemplateNode)
  | otherNode
deriving DecidableEq

/-- A parsed source file: its text and the syntax-tree nodes in traversal
order (the parse itself is done by the external TypeScript compiler). -/
structure ParsedFile where
  source : List Char
  nodes : List TsNode
deriving DecidableEq

/-- The edits pushed by the `visit` callback for one node: delete a top-level
module named `queries`, rewrite a matched `sql`-tagged template. -/
def visitNode (group : List TaggedQuery) : TsNode → List Edit
  | .moduleDecl name s e => if name == "queries" then [⟨s, e, []⟩] else []
  | .taggedTemplate n =>
    if n.tagIsIdentifier then
      if n.tagText == "sql" then
        match group.find? (fun q => q.text == n.fullText) with
        | some m => [⟨n.tagStart, n.templateStart, ("sql<queries." ++ m.tag ++ ">").data⟩]
        | none => []
      else []
    else []
  | .otherNode => []

/-- All edits pushed by the `visit` walk over the parsed file. -/
def visitEdits (group : List TaggedQuery) (p : ParsedFile) : List Edit :=
  p.nodes.flatMap (visitNode group)

/-- The regex strip `importPath.replace(/\.(js|ts|tsx)$/, "")`: removes one
trailing `.js`, `.ts` or `.tsx` extension. -/
def stripScriptExt (p : String) : String :=
  if ".tsx".data.isSuffixOf p.data then String.mk (p.data.take (p.data.length - 4))
  else if ".ts".data.isSuffixOf p.data then String.mk (p.data.take (p.data.length - 3))
  else if ".js".data.isSuffixOf p.data then String.mk (p.data.take (p.data.length - 3))
  else p

/-- The `importStatement` template of `getFileWriter`. -/
def importStatementFor (importPath : String) : String :=
  ("import " : String) ++ "* as queries from \x27./" ++ stripScriptExt importPath ++ "\x27"

/-- The variant `importStatement.replace(/'/g, \x22)`: every single quote becomes
a double quote. -/
def doubleQuoted (s : String) : String :=
  String.mk (s.data.map fun c => if c = '\x27' then '"' else c)

/-- The variant `importStatement.replace("import * as", "import")` (synthetic
default import; JS `replace` with a string pattern replaces the first
occurrence). -/
def defaultImportVariant (s : String) : String :=
  String.mk (replaceFirst "import * as".data "import".data s.data)

/-- The `importExists` check of `getFileWriter`: the source already contains one
of the three textual spellings of the import. -/
def importExists (importPath : String) (source : List Char) : Bool :=
  let stmt := importStatementFor importPath
  jsIncludes source stmt.data || jsIncludes source (doubleQuoted stmt).data ||
    jsIncludes source (defaultImportVariant stmt).data

/-- The import edit pushed by `getFileWriter` when the destination differs from
the source file: an insertion at offset 0, only when no spelling is present. -/
def importInsertEdits (importPath : String) (source : List Char) : List Edit :=
  if importExists importPath source then []
  else [⟨0, 0, (importStatementFor importPath ++ "\n").data⟩]

/-- The full edit list computed by `getFileWriter` for one file before the
splice loop. `destEqFile` is the comparison `destPath === file` of the
destination returned by `getQueriesModule`; `importPath` is the result of the
external path helper `relativeUnixPath(destPath, path.dirname(file))`. In the
separate-destination branch the destination file content
(`queryInterfaces(group)`) is computed and written before the edits are
applied, so a rendering error aborts there as well. -/
def fileWriterEdits (tsPretty : String → String) (group : List TaggedQuery) (p : ParsedFile)
    (destEqFile : Bool) (importPath : String) : Except String (List Edit) :=
  let ves := visitEdits group p
  if destEqFile then
    (queriesModule tsPretty group).map fun m =>
      ves ++ [⟨p.source.length, p.source.length, m.data⟩]
  else
    (queryInterfaces tsPretty group).map fun _destContent =>
      ves ++ importInsertEdits importPath p.source

/-- The patched source text produced by `getFileWriter` (before the external
formatting collaborator `prettifyOne` and the write to disk). -/
def fileWriterOutput (tsPretty : String → String) (group : List TaggedQuery) (p : ParsedFile)
    (destEqFile : Bool) (importPath : String) : Except String (List Char) :=
  (fileWriterEdits tsPretty group p destEqFile importPath).map (applyEdits p.source)

-- Specification-side definitions for the edit-splicing claim.

/-- Modelled from the spec (4.3 Source Patcher): the text with each scheduled
span independently replaced - the untouched text between `pos` and the next
edit, the replacement, and so on. -/
def patchedFrom (text : List Char) (pos : Nat) : List Edit → List Char
  | [] => text.drop pos
  | e :: rest => (text.take e.start).drop pos ++ e.replacement ++ patchedFrom text e.stop rest

/-- Modelled from the spec (4.3 Source Patcher): the edits, listed in ascending
span order starting at `pos`, are pairwise non-overlapping and within a text of
length `len`. -/
def chainedFrom (len pos : Nat) : List Edit → Bool
  | [] => true
  | e :: rest =>
    decide (pos ≤ e.start) && decide (e.start ≤ e.stop) && decide (e.stop ≤ len) &&
      rest.all (fun e2 => decide (e.stop < e2.stop)) && chainedFrom len e.stop rest

-- Further concrete inputs used by counterexamples and witnesses.

/-- Query with shape `[fieldB]`, single suggested tag `M`, in file `f.ts`. -/
def qMb : AnalysedQuery :=
  { file := "f.ts", sql := "select b", text := "sql`select b`", fields := [fieldB],
    suggestedTags := ["M"], comment := none }

/-- Query with shape `[fieldC]`, single suggested tag `M`, in file `f.ts`. -/
def qMc : AnalysedQuery :=
  { file := "f.ts", sql := "select c", text := "sql`select c`", fields := [fieldC],
    suggestedTags := ["M"], comment := none }

/-- Query with shape `[fieldA]`, in file `f.ts`, with no suggested tags at all. -/
def qNoTags : AnalysedQuery :=
  { file := "f.ts", sql := "select a", text := "sql`select a`", fields := [fieldA],
    suggestedTags := [], comment := none }

/-- The `foo` field of the spec scenario: `number`, not null. -/
def fooField : Field :=
  { name := "foo", typescript := "number", notNull := true, column := none, gdesc := none,
    comment := none }

/-- The `bar` field of the spec scenario: `string`, nullable. -/
def barField : Field :=
  { name := "bar", typescript := "string", notNull := false, column := none, gdesc := none,
    comment := none }

/-- The query of the spec scenario `select foo, bar from test_table`. -/
def qFooBar : AnalysedQuery :=
  { file := "test.ts", sql := "select foo, bar from test_table",
    text := "sql`select foo, bar from test_table`", fields := [fooField, barField],
    suggestedTags := ["TestTable"], comment := none }

/-- The query `qA1` tagged `M`, as produced by `addTags [qA1]`. -/
def taggedA1M : TaggedQuery :=
  { toWithIdentifier := { toAnalysedQuery := qA1, identifier := stringifyFields [fieldA] },
    tag := "M" }

/-- C1, counterexample: tag assignment runs per file (`groupBy(q => q.file)` and
only then `mapValues(addTags)`), so two queries with equal Identifier in
different files can receive different tags. Here `qA1` (file f1.ts) and `qA2`
(file f2.ts) have equal serialized fields arrays, yet `qA1` is tagged `M` while
`qA2` is tagged `M_0`, because the tag `M` was claimed inside f2.ts by `qB2`.
This refutes the claim that assignment completes globally over all discovered
queries before any file is processed. -/
theorem c1_counterexample :
    stringifyFields qA1.fields = stringifyFields qA2.fields ∧
    qA1.file ≠ qA2.file ∧
    (tagQueriesByFile [qA1, qB2, qA2]).map
        (fun fg => (fg.1, fg.2.map (fun l => l.map (fun t => t.tag)))) =
      [("f1.ts", some ["M"]), ("f2.ts", some ["M", "M_0"])] := by
  decide

/-- C3, failing input: three queries in one file with three distinct
Identifiers, each suggesting only the tag `M`. The code resolves them to tags
`M`, `M_0` and `M_0`: the two colliding queries both receive the suffix of the
same first occurrence, so two queries with different Identifiers share the tag
`M_0` inside one file - contradicting the documented intent of `addTags`
(`going through the suggestions and using _0, _1 to disambiguate as a last
resort`) and the per-file uniqueness invariant. -/
theorem c3_code_bug_eval :
    stringifyFields qMb.fields ≠ stringifyFields qMc.fields ∧
    (addTags [qA1, qMb, qMc]).map (fun l => l.map (fun t => t.tag)) =
      some ["M", "M_0", "M_0"] ∧
    (renderQueryInterface [qMb, qMc] "M_0").isOk = false := by
  decide

/-- C4, counterexample: the rendered type expression of the nullable `bar`
field is `(string) | null` - the base type is parenthesised - not the literal
`string | null` stated in the claim; the rendered body of the scenario query
contains the former and not the latter. -/
theorem c4_counterexample :
    fieldType barField = "(string) | null" ∧
    fieldType barField ≠ "string | null" ∧
    jsIncludes (interfaceBody qFooBar).data ("\"bar\": (string) | null").data = true ∧
    jsIncludes (interfaceBody qFooBar).data ("\"bar\": string | null").data = false := by
  decide

/-- C8, counterexample: two overlapping spans are spliced silently - the loop
has no overlap check and no failure path. On `abcdef` the overlapping edits
`(0, 4, WX)` and `(2, 6, YZ)` produce the corrupted text `WX` (the `YZ`
replacement is swallowed) instead of failing loudly with an error. -/
theorem c8_counterexample :
    applyEdits "abcdef".data
        [⟨0, 4, "WX".data⟩, ⟨2, 6, "YZ".data⟩] = "WX".data := by
  decide

/-- C10, counterexample: an input list in which some query has an empty
`suggestedTags` array, yet `addTags` succeeds - the empty-tag query `qNoTags`
shares its Identifier with `qA1`, whose candidates put that Identifier into the
tag map, so the final lookup finds an entry and no error is raised. -/
theorem c10_counterexample :
    qNoTags.suggestedTags = [] ∧
    (addTags [qNoTags, qA1]).map (fun l => l.map (fun t => t.tag)) = some ["M", "M"] := by
  decide

-- Lemmas about the stable sort and the dedup helpers.

theorem insertSorted_perm (k : α → Int) (x : α) :
    ∀ l : List α, (insertSorted k x l).Perm (x :: l)
  | [] => .refl _
  | y :: ys => by
    rw [insertSorted]
    by_cases h : k x ≤ k y
    · rw [if_pos h]
    · rw [if_neg h]
      exact ((insertSorted_perm k x ys).cons y).trans (List.Perm.swap x y ys)

theorem sortOn_perm (k : α → Int) : ∀ l : List α, (sortOn k l).Perm l
  | [] => .refl _
  | x :: xs => (insertSorted_perm k x (sortOn k xs)).trans ((sortOn_perm k xs).cons x)

theorem pairwise_insertSorted (k : α → Int) (x : α) {l : List α}
    (h : l.Pairwise (fun a b => k a ≤ k b)) :
    (insertSorted k x l).Pairwise (fun a b => k a ≤ k b) := by
  induction l with
  | nil => exact List.pairwise_singleton _ _
  | cons y ys ih =>
    rw [insertSorted]
    by_cases hxy : k x ≤ k y
    · rw [if_pos hxy]
      refine List.Pairwise.cons ?_ h
      intro z hz
      rcases List.mem_cons.mp hz with rfl | hz2
      · exact hxy
      · exact le_trans hxy (List.rel_of_pairwise_cons h hz2)
    · rw [if_neg hxy]
      refine List.Pairwise.cons ?_ (ih h.of_cons)
      intro z hz
      rcases List.mem_cons.mp ((insertSorted_perm k x ys).subset hz) with rfl | hz2
      · exact le_of_lt (not_le.mp hxy)
      · exact List.rel_of_pairwise_cons h hz2

theorem pairwise_sortOn (k : α → Int) : ∀ l : List α, (sortOn k l).Pairwise (fun a b => k a ≤ k b)
  | [] => List.Pairwise.nil
  | x :: xs => pairwise_insertSorted k x (pairwise_sortOn k xs)

theorem insertSorted_of_lt (k : α → Int) (x : α) :
    ∀ {l : List α}, (∀ y ∈ l, k y < k x) → insertSorted k x l = l ++ [x]
  | [], _ => rfl
  | y :: ys, h => by
    rw [insertSorted, if_neg (not_le.mpr (h y (by simp))),
      insertSorted_of_lt k x (fun z hz => h z (by simp [hz])), List.cons_append]

theorem sortOn_strictDesc (k : α → Int) :
    ∀ {l : List α}, l.Pairwise (fun a b => k b < k a) → sortOn k l = l.reverse
  | [], _ => rfl
  | x :: xs, h => by
    rw [sortOn, sortOn_strictDesc k h.of_cons,
      insertSorted_of_lt k x (fun y hy => List.rel_of_pairwise_cons h (by simpa using hy)),
      List.reverse_cons]

theorem insertSorted_append_last (k : α → Int) (e x : α) (h : k e ≤ k x) :
    ∀ l : List α, insertSorted k e (l ++ [x]) = insertSorted k e l ++ [x]
  | [] => by simp [insertSorted, h]
  | y :: ys => by
    by_cases hy : k e ≤ k y
    · simp [insertSorted, hy]
    · simp [insertSorted, hy, insertSorted_append_last k e x h ys]

theorem sortOn_append_last (k : α → Int) (x : α) :
    ∀ {l : List α}, (∀ y ∈ l, k y ≤ k x) → sortOn k (l ++ [x]) = sortOn k l ++ [x]
  | [], _ => by simp [sortOn, insertSorted]
  | y :: ys, h => by
    rw [List.cons_append, sortOn, sortOn_append_last k x (fun z hz => h z (by simp [hz])),
      insertSorted_append_last k y x (h y (by simp)), sortOn]

theorem uniqByAux_subset {k : α → String} :
    ∀ {seen : List String} {l : List α} {x : α}, x ∈ uniqByAux k seen l → x ∈ l := by
  intro seen l
  induction l generalizing seen with
  | nil => intro x h; exact absurd h (by simp [uniqByAux])
  | cons y ys ih =>
    intro x h
    rw [uniqByAux] at h
    by_cases hs : seen.contains (k y)
    · rw [if_pos hs] at h
      exact List.mem_cons_of_mem y (ih h)
    · rw [if_neg hs] at h
      rcases List.mem_cons.mp h with rfl | h2
      · exact List.mem_cons_self x ys
      · exact List.mem_cons_of_mem y (ih h2)

theorem uniqBy_subset {k : α → String} {l : List α} {x : α} (h : x ∈ uniqBy k l) : x ∈ l :=
  uniqByAux_subset h

-- Structural lemmas about the `addTags` pipeline.

theorem mem_withIdentifiers {queries : List AnalysedQuery} {q : WithIdentifier}
    (h : q ∈ withIdentifiers queries) :
    q.toAnalysedQuery ∈ queries ∧ q.identifier = stringifyFields q.fields := by
  simp only [withIdentifiers, List.mem_map] at h
  obtain ⟨a, ha, rfl⟩ := h
  exact ⟨ha, rfl⟩

theorem addTagsLookup_mem {tm : List ResolvedCandidate} :
    ∀ {l : List WithIdentifier} {res : List TaggedQuery},
      addTagsLookup tm l = some res → ∀ t ∈ res,
        ∃ q ∈ l, ∃ r, tm.find? (fun r2 => r2.identifier == q.identifier) = some r ∧
          t = { toWithIdentifier := q, tag := r.tag } := by
  intro l
  induction l with
  | nil =>
    intro res h t ht
    rw [addTagsLookup] at h
    cases h
    exact absurd ht (by simp)
  | cons q qs ih =>
    intro res h t ht
    rw [addTagsLookup] at h
    cases hf : tm.find? (fun r2 => r2.identifier == q.identifier) with
    | none => rw [hf] at h; cases h
    | some r =>
      rw [hf] at h
      obtain ⟨rest, hrest, rfl⟩ := Option.map_eq_some'.mp h
      rcases List.mem_cons.mp ht with rfl | ht2
      · exact ⟨q, List.mem_cons_self q qs, r, hf, rfl⟩
      · obtain ⟨q2, hq2, r2, hf2, ht3⟩ := ih hrest t ht2
        exact ⟨q2, List.mem_cons_of_mem q hq2, r2, hf2, ht3⟩

theorem addTagsLookup_none {tm : List ResolvedCandidate} :
    ∀ {l : List WithIdentifier} {q : WithIdentifier}, q ∈ l →
      tm.find? (fun r2 => r2.identifier == q.identifier) = none →
      addTagsLookup tm l = none := by
  intro l
  induction l with
  | nil => intro q hq; exact absurd hq (by simp)
  | cons y ys ih =>
    intro q hq hf
    rw [addTagsLookup]
    rcases List.mem_cons.mp hq with rfl | hq2
    · rw [hf]
    · cases hfy : tm.find? (fun r2 => r2.identifier == y.identifier) with
      | none => rfl
      | some r => rw [ih hq2 hf]; rfl

/-- C1, amended part: within one `addTags` call (one file group) any two result
entries with equal serialized fields arrays carry the same tag, because the
final lookup is a pure function of the identifier. -/
theorem c1_thm (queries : List AnalysedQuery) (res : List TaggedQuery)
    (h : addTags queries = some res) (t1 : TaggedQuery) (h1 : t1 ∈ res)
    (t2 : TaggedQuery) (h2 : t2 ∈ res)
    (hid : stringifyFields t1.fields = stringifyFields t2.fields) :
    t1.tag = t2.tag := by
  obtain ⟨q1, hq1, r1, hf1, rfl⟩ := addTagsLookup_mem h t1 h1
  obtain ⟨q2, hq2, r2, hf2, rfl⟩ := addTagsLookup_mem h t2 h2
  have e1 := (mem_withIdentifiers hq1).2
  have e2 := (mem_withIdentifiers hq2).2
  have hqq : q1.identifier = q2.identifier := by
    rw [e1, e2]
    exact hid
  rw [hqq, hf2] at hf1
  cases hf1
  rfl

/-- C1, witness for the amended theorem at the concrete input `[qNoTags, qA1]`
(two queries with equal fields in one file, tagged `M` and `M`). -/
theorem c1_witness :
    ({ toWithIdentifier := { toAnalysedQuery := qNoTags, identifier := stringifyFields [fieldA] },
        tag := "M" } : TaggedQuery).tag =
      ({ toWithIdentifier := { toAnalysedQuery := qA1, identifier := stringifyFields [fieldA] },
          tag := "M" } : TaggedQuery).tag :=
  c1_thm [qNoTags, qA1]
    [{ toWithIdentifier := { toAnalysedQuery := qNoTags, identifier := stringifyFields [fieldA] },
        tag := "M" },
     { toWithIdentifier := { toAnalysedQuery := qA1, identifier := stringifyFields [fieldA] },
        tag := "M" }]
    (by decide) _ (by decide) _ (by decide) (by decide)

theorem resolveOne_identifier (arr : List Candidate) (q : Candidate) :
    (resolveOne arr q).identifier = q.identifier := rfl

theorem mem_tagMap_identifier {queries : List AnalysedQuery} {r : ResolvedCandidate}
    (h : r ∈ tagMap queries) :
    ∃ c ∈ tagCandidates queries, c.identifier = r.identifier := by
  have h1 := (sortOn_perm (fun r2 => ((r2.priority : Nat) : Int)) (resolvedCandidates queries)).subset
    (uniqBy_subset h)
  simp only [resolvedCandidates, List.mem_map] at h1
  obtain ⟨c, hc, rfl⟩ := h1
  exact ⟨c, (sortOn_perm _ _).subset hc, rfl⟩

theorem mem_tagCandidates {queries : List AnalysedQuery} {c : Candidate}
    (h : c ∈ tagCandidates queries) :
    ∃ q ∈ withIdentifiers queries, c.identifier = q.identifier ∧ q.suggestedTags ≠ [] := by
  simp only [tagCandidates, List.mem_flatMap, List.mem_map] at h
  obtain ⟨q, hq, tag, htag, rfl⟩ := h
  exact ⟨q, hq, rfl, List.ne_nil_of_mem htag⟩

/-- C10, amended: `addTags` fails (the final lookup dereferences a missing map
entry) whenever some query has an empty `suggestedTags` array and no query with
an equal serialized fields array contributes any suggested tag; such an
Identifier never enters the tag map. -/
theorem c10_thm (queries : List AnalysedQuery) (q : AnalysedQuery)
    (hq : q ∈ queries) (hempty : q.suggestedTags = [])
    (hall : ∀ q2 ∈ queries,
      stringifyFields q2.fields = stringifyFields q.fields → q2.suggestedTags = []) :
    addTags queries = none := by
  have hqi : ({ toAnalysedQuery := q, identifier := stringifyFields q.fields } : WithIdentifier) ∈
      withIdentifiers queries := by
    simp only [withIdentifiers, List.mem_map]
    exact ⟨q, hq, rfl⟩
  apply addTagsLookup_none hqi
  rw [List.find?_eq_none]
  intro r hr hbeq
  have hid : r.identifier = stringifyFields q.fields := by simpa using hbeq
  obtain ⟨c, hc, hcid⟩ := mem_tagMap_identifier hr
  obtain ⟨q2, hq2, hcq2, hne⟩ := mem_tagCandidates hc
  have h2 := mem_withIdentifiers hq2
  exact hne (hall q2.toAnalysedQuery h2.1 (by rw [← h2.2, ← hcq2, hcid, hid]))

/-- C10, witness for the amended theorem: a single query with no suggested tags
makes `addTags` throw. -/
theorem c10_witness : addTags [qNoTags] = none :=
  c10_thm [qNoTags] qNoTags (by decide) (by decide) (by decide)

-- Lemmas about `firstWithTagIndex` and `resolveOne`.

theorem firstWithTagIndex_lt {s : List Candidate} {q : Candidate} (hmem : q ∈ s) :
    firstWithTagIndex s q < s.length := by
  unfold firstWithTagIndex
  exact List.findIdx_lt_length_of_exists ⟨q, hmem, by simp⟩

theorem firstWithTagIndex_tag {s : List Candidate} {q : Candidate}
    (hj : firstWithTagIndex s q < s.length) :
    (s.get ⟨firstWithTagIndex s q, hj⟩).tag = q.tag := by
  unfold firstWithTagIndex at hj ⊢
  have h2 := @List.findIdx_getElem _ (fun o => o.tag == q.tag) s hj
  simpa [List.get_eq_getElem] using h2

theorem firstWithTagIndex_le {s : List Candidate} {q : Candidate} {i : Nat}
    (hi : i < s.length) (hq : q = s.get ⟨i, hi⟩) : firstWithTagIndex s q ≤ i := by
  by_contra hlt
  push_neg at hlt
  unfold firstWithTagIndex at hlt
  have hfalse := @List.not_of_lt_findIdx _ (fun o => o.tag == q.tag) s i hlt
  have hfalse2 : ((s.get ⟨i, hi⟩).tag == q.tag) = false := by
    simpa [List.get_eq_getElem] using hfalse
  rw [← hq] at hfalse2
  simp at hfalse2

theorem resolveOne_tag (arr : List Candidate) (q : Candidate)
    (hj : firstWithTagIndex arr q < arr.length) :
    (resolveOne arr q).tag =
      if (arr.get ⟨firstWithTagIndex arr q, hj⟩).identifier = q.identifier then q.tag
      else q.tag ++ "_" ++ toString (firstWithTagIndex arr q) := by
  simp only [resolveOne, List.getElem?_eq_getElem hj, List.get_eq_getElem]
  by_cases h : arr[firstWithTagIndex arr q].identifier = q.identifier
  · simp [h]
  · simp [h]

/-- C2: the mechanics of tag collision resolution. For every input list, the
candidate array is sorted ascending by the number of suggested-tag alternatives
of each record (and is a permutation of the expanded candidates); for every
position `i`, the first position `j` carrying the same tag string satisfies
`j ≤ i` and has at most as many alternatives; the candidate at `j` keeps its
bare tag; the candidate at `i` keeps its bare tag exactly when the Identifier
at `j` matches, and is otherwise rewritten to `tag ++ "_" ++ j`, `j` being the
positional index of the first carrier in the sorted candidate array; and the
mapped array records this resolution at position `i`. -/
theorem c2_thm (queries : List AnalysedQuery) (i : Nat)
    (hi : i < (sortedCandidates queries).length) :
    (sortedCandidates queries).Pairwise
        (fun a b => a.alternatives.length ≤ b.alternatives.length) ∧
    (sortedCandidates queries).Perm (tagCandidates queries) ∧
    ∃ hj : firstWithTagIndex (sortedCandidates queries)
        ((sortedCandidates queries).get ⟨i, hi⟩) < (sortedCandidates queries).length,
      ∃ cj : Candidate,
        cj = (sortedCandidates queries).get
          ⟨firstWithTagIndex (sortedCandidates queries) ((sortedCandidates queries).get ⟨i, hi⟩),
            hj⟩ ∧
        firstWithTagIndex (sortedCandidates queries) ((sortedCandidates queries).get ⟨i, hi⟩) ≤ i ∧
        cj.alternatives.length ≤ ((sortedCandidates queries).get ⟨i, hi⟩).alternatives.length ∧
        (resolveOne (sortedCandidates queries) cj).tag = cj.tag ∧
        (cj.identifier = ((sortedCandidates queries).get ⟨i, hi⟩).identifier →
          (resolveOne (sortedCandidates queries) ((sortedCandidates queries).get ⟨i, hi⟩)).tag =
            ((sortedCandidates queries).get ⟨i, hi⟩).tag) ∧
        (cj.identifier ≠ ((sortedCandidates queries).get ⟨i, hi⟩).identifier →
          (resolveOne (sortedCandidates queries) ((sortedCandidates queries).get ⟨i, hi⟩)).tag =
            ((sortedCandidates queries).get ⟨i, hi⟩).tag ++ "_" ++
              toString (firstWithTagIndex (sortedCandidates queries)
                ((sortedCandidates queries).get ⟨i, hi⟩))) ∧
        (resolvedCandidates queries)[i]? =
          some (resolveOne (sortedCandidates queries) ((sortedCandidates queries).get ⟨i, hi⟩)) := by
  have hpair : (sortedCandidates queries).Pairwise
      (fun a b => a.alternatives.length ≤ b.alternatives.length) :=
    (pairwise_sortOn (fun c : Candidate => (c.alternatives.length : Int))
      (tagCandidates queries)).imp (fun h => by exact_mod_cast h)
  refine ⟨hpair, sortOn_perm _ _, ?_⟩
  have hmem : (sortedCandidates queries).get ⟨i, hi⟩ ∈ sortedCandidates queries :=
    List.get_mem _ _ _
  have hj : firstWithTagIndex (sortedCandidates queries) ((sortedCandidates queries).get ⟨i, hi⟩) <
      (sortedCandidates queries).length := firstWithTagIndex_lt hmem
  have hle : firstWithTagIndex (sortedCandidates queries) ((sortedCandidates queries).get ⟨i, hi⟩) ≤
      i := firstWithTagIndex_le hi rfl
  have htagj := firstWithTagIndex_tag hj
  refine ⟨hj, (sortedCandidates queries).get
    ⟨firstWithTagIndex (sortedCandidates queries) ((sortedCandidates queries).get ⟨i, hi⟩), hj⟩,
    rfl, hle, ?_, ?_, ?_, ?_, ?_⟩
  · rcases Nat.lt_or_eq_of_le hle with hlt | heq
    · exact List.pairwise_iff_get.mp hpair _ _ hlt
    · have hgeq : (sortedCandidates queries).get
          ⟨firstWithTagIndex (sortedCandidates queries) ((sortedCandidates queries).get ⟨i, hi⟩),
            hj⟩ = (sortedCandidates queries).get ⟨i, hi⟩ := by
        congr 1
        exact Fin.ext heq
      rw [hgeq]
  · have hsame : firstWithTagIndex (sortedCandidates queries)
        ((sortedCandidates queries).get
          ⟨firstWithTagIndex (sortedCandidates queries) ((sortedCandidates queries).get ⟨i, hi⟩),
            hj⟩) =
        firstWithTagIndex (sortedCandidates queries) ((sortedCandidates queries).get ⟨i, hi⟩) := by
      conv_lhs => rw [firstWithTagIndex, htagj]
      rfl
    have hj2 : firstWithTagIndex (sortedCandidates queries)
        ((sortedCandidates queries).get
          ⟨firstWithTagIndex (sortedCandidates queries) ((sortedCandidates queries).get ⟨i, hi⟩),
            hj⟩) < (sortedCandidates queries).length := by
      rw [hsame]
      exact hj
    rw [resolveOne_tag _ _ hj2]
    have hgj : (sortedCandidates queries).get
        ⟨firstWithTagIndex (sortedCandidates queries)
          ((sortedCandidates queries).get
            ⟨firstWithTagIndex (sortedCandidates queries) ((sortedCandidates queries).get ⟨i, hi⟩),
              hj⟩), hj2⟩ =
        (sortedCandidates queries).get
          ⟨firstWithTagIndex (sortedCandidates queries) ((sortedCandidates queries).get ⟨i, hi⟩),
            hj⟩ := by
      congr 1
      exact Fin.ext hsame
    rw [hgj, if_pos rfl]
  · intro heq
    rw [resolveOne_tag (sortedCandidates queries) ((sortedCandidates queries).get ⟨i, hi⟩) hj,
      if_pos heq]
  · intro hne
    rw [resolveOne_tag (sortedCandidates queries) ((sortedCandidates queries).get ⟨i, hi⟩) hj,
      if_neg hne]
  · simp only [resolvedCandidates, List.getElem?_map, List.getElem?_eq_getElem hi,
      Option.map_some', List.get_eq_getElem]

/-- C2, witness at the concrete input `[qA1, qMb]` (two single-suggestion
queries with distinct Identifiers, both suggesting `M`): position 1 collides
with the first carrier at position 0, which keeps `M`, and is rewritten to
`M_0`. -/
theorem c2_witness :
    (resolveOne (sortedCandidates [qA1, qMb])
        ((sortedCandidates [qA1, qMb]).get ⟨1, by decide⟩)).tag = "M_0" := by
  obtain ⟨-, -, hj, cj, hcj, -, -, -, -, hcoll, -⟩ := c2_thm [qA1, qMb] 1 (by decide)
  have hcj2 : cj = (sortedCandidates [qA1, qMb]).get ⟨0, by decide⟩ := by
    rw [hcj]
    congr 1
  rw [hcoll (by rw [hcj2]; decide)]
  decide

-- C5: the consistency assert of `renderQueryInterface`.

theorem uniqByAux_eq_nil {k : α → String} :
    ∀ {seen : List String} {l : List α},
      uniqByAux k seen l = [] ↔ ∀ y ∈ l, seen.contains (k y) = true := by
  intro seen l
  induction l generalizing seen with
  | nil => simp [uniqByAux]
  | cons y ys ih =>
    rw [uniqByAux]
    by_cases hs : seen.contains (k y)
    · rw [if_pos hs, ih]
      constructor
      · intro h z hz
        rcases List.mem_cons.mp hz with rfl | hz2
        · exact hs
        · exact h z hz2
      · intro h z hz
        exact h z (List.mem_cons_of_mem y hz)
    · rw [if_neg hs]
      constructor
      · intro h
        cases h
      · intro h
        exact absurd (h y (List.mem_cons_self y ys)) hs

theorem uniqBy_id_cons_length_one {x : String} {xs : List String} :
    (uniqBy id (x :: xs)).length = 1 ↔ ∀ y ∈ xs, y = x := by
  unfold uniqBy
  rw [uniqByAux]
  rw [if_neg (by simp)]
  rw [List.length_cons, Nat.add_left_eq_self, List.length_eq_zero]
  rw [uniqByAux_eq_nil]
  constructor
  · intro h y hy
    have h2 := h y hy
    simpa using h2
  · intro h y hy
    simp [h y hy]

/-- C5: `renderQueryInterface` on a (nonempty) tag group fails exactly when the
queries of the group do not all render the same field-body text, and when they
do, it returns the declaration built from the comments and that single body
(`bodies[0]`). -/
theorem c5_thm (query : AnalysedQuery) (rest : List AnalysedQuery)
    (interfaceName : String) :
    ((∃ e, renderQueryInterface (query :: rest) interfaceName = .error e) ↔
      ∃ q ∈ rest, interfaceBody q ≠ interfaceBody query) ∧
    ((∀ q ∈ rest, interfaceBody q = interfaceBody query) →
      renderQueryInterface (query :: rest) interfaceName =
        .ok ("\n    " ++
          jsdocComment
            (if rest.length = 0 then
              [some ("- query: `" ++ jsdocQuery query.sql ++ "`"), query.comment]
            else
              some ("queries:\n" ++ String.intercalate "\n"
                  ((query :: rest).map fun q => "- `" ++ jsdocQuery q.sql ++ "`"))
                :: (query :: rest).map (fun q => q.comment)) ++
          "\n     export interface " ++ interfaceName ++ " " ++ interfaceBody query ++
          "\n  ")) := by
  have hcond : (uniqBy id ((query :: rest).map interfaceBody)).length = 1 ↔
      ∀ q ∈ rest, interfaceBody q = interfaceBody query := by
    rw [List.map_cons, uniqBy_id_cons_length_one]
    constructor
    · intro h q hq
      exact h _ (List.mem_map_of_mem _ hq)
    · intro h y hy
      obtain ⟨q, hq, rfl⟩ := List.mem_map.mp hy
      exact h q hq
  constructor
  · by_cases hall : ∀ q ∈ rest, interfaceBody q = interfaceBody query
    · rw [renderQueryInterface]
      rw [if_pos (hcond.mpr hall)]
      constructor
      · rintro ⟨e, he⟩
        exact Except.noConfusion he
      · rintro ⟨q, hq, hne⟩
        exact absurd (hall q hq) hne
    · rw [renderQueryInterface]
      rw [if_neg (fun hc => hall (hcond.mp hc))]
      push_neg at hall
      obtain ⟨q, hq, hne⟩ := hall
      exact ⟨fun _ => ⟨q, hq, hne⟩, fun _ => ⟨_, rfl⟩⟩
  · intro hall
    rw [renderQueryInterface]
    rw [if_pos (hcond.mpr hall)]

/-- C5, witness: the single-query group of the spec scenario renders its
declaration. -/
theorem c5_witness :
    renderQueryInterface [qFooBar] "TestTable" =
      .ok ("\n    " ++
        jsdocComment [some ("- query: `" ++ jsdocQuery qFooBar.sql ++ "`"), qFooBar.comment] ++
        "\n     export interface TestTable " ++ interfaceBody qFooBar ++ "\n  ") := by
  have h := (c5_thm qFooBar [] "TestTable").2 (by simp)
  simpa using h

-- C7: rewriting of matched `sql`-tagged call sites, first match wins.

theorem find?_get_of_first {p : α → Bool} :
    ∀ {l : List α} {i : Nat} (hi : i < l.length),
      p (l.get ⟨i, hi⟩) = true →
      (∀ k (hk : k < i), p (l.get ⟨k, Nat.lt_trans hk hi⟩) = false) →
      l.find? p = some (l.get ⟨i, hi⟩) := by
  intro l
  induction l with
  | nil => intro i hi; cases hi
  | cons x xs ih =>
    intro i hi hp hmin
    cases i with
    | zero => exact List.find?_cons_of_pos _ hp
    | succ j =>
      have hx : p x = false := hmin 0 (Nat.succ_pos j)
      rw [List.find?_cons_of_neg _ (by simp [hx])]
      exact ih (Nat.lt_of_succ_lt_succ hi) hp
        (fun k hk => hmin (k + 1) (Nat.succ_lt_succ hk))

/-- C7: for a tagged template node whose tag is the bare identifier `sql`, if
no entry of the file group has captured text equal to the node full source
text, the visit step schedules nothing for it (and raises no error); if some
entry matches, the visit step schedules exactly one replacement of the span
from the tag start to the template start with `sql<queries.TAG>`, `TAG` being
the tag of the first matching entry. -/
theorem c7_thm (group : List TaggedQuery) (n : SqlTemplateNode)
    (hident : n.tagIsIdentifier = true) (htag : n.tagText = "sql") :
    ((∀ q ∈ group, q.text ≠ n.fullText) → visitNode group (.taggedTemplate n) = []) ∧
    (∀ i : Nat, ∀ hi : i < group.length,
      (group.get ⟨i, hi⟩).text = n.fullText →
      (∀ k : Nat, ∀ hk : k < i, (group.get ⟨k, Nat.lt_trans hk hi⟩).text ≠ n.fullText) →
      visitNode group (.taggedTemplate n) =
        [⟨n.tagStart, n.templateStart,
          ("sql<queries." ++ (group.get ⟨i, hi⟩).tag ++ ">").data⟩]) := by
  constructor
  · intro hnone
    rw [visitNode, hident, htag]
    rw [List.find?_eq_none.mpr (fun q hq => by simp [hnone q hq])]
    simp
  · intro i hi hmatch hfirst
    rw [visitNode, hident, htag]
    rw [find?_get_of_first hi (by simpa using hmatch)
      (fun k hk => by simpa using hfirst k hk)]
    simp

/-- C7, witness: in a singleton group whose captured text matches the node, the
rewrite to `sql<queries.M>` is scheduled (match at position 0). -/
theorem c7_witness :
    visitNode [taggedA1M] (.taggedTemplate ⟨true, "sql", 10, 23, "sql`select a`"⟩) =
      [⟨10, 23, ("sql<queries." ++ (([taggedA1M]).get ⟨0, by decide⟩).tag ++ ">").data⟩] :=
  (c7_thm [taggedA1M] ⟨true, "sql", 10, 23, "sql`select a`"⟩ rfl rfl).2
    0 (by decide) (by decide) (fun k hk => absurd hk (Nat.not_lt_zero k))

-- C9: the import statement is inserted at offset zero exactly when none of the
-- three spellings occurs in the source.

theorem visitNode_replacement {group : List TaggedQuery} {node : TsNode} {e : Edit}
    (he : e ∈ visitNode group node) :
    e.replacement = [] ∨ e.replacement.head? = some 's' := by
  cases node with
  | moduleDecl name s e2 =>
    rw [visitNode] at he
    by_cases hn : name == "queries"
    · rw [if_pos hn] at he
      rw [List.mem_singleton.mp he]
      exact Or.inl rfl
    · rw [if_neg hn] at he
      cases he
  | taggedTemplate n =>
    rw [visitNode] at he
    by_cases h1 : n.tagIsIdentifier
    · rw [if_pos h1] at he
      by_cases h2 : n.tagText == "sql"
      · rw [if_pos h2] at he
        cases hf : group.find? (fun q => q.text == n.fullText) with
        | none => rw [hf] at he; cases he
        | some m =>
          rw [hf] at he
          rw [List.mem_singleton.mp he]
          refine Or.inr ?_
          show (("sql<queries." ++ m.tag ++ ">") : String).data.head? = some 's'
          rw [String.data_append, String.data_append]
          rfl
      · rw [if_neg h2] at he
        cases he
    · rw [if_neg h1] at he
      cases he
  | otherNode =>
    rw [visitNode] at he
    cases he

theorem importStatement_head (importPath : String) :
    ((importStatementFor importPath ++ "\n") : String).data.head? = some 'i' := by
  rw [importStatementFor]
  rw [String.data_append, String.data_append, String.data_append, String.data_append]
  rfl

/-- C9: when the destination path differs from the source file, the computed
edit list contains the insertion of the namespaced import statement at offset
zero if and only if none of the three textual spellings of the import already
occurs in the source text. -/
theorem c9_thm (tsPretty : String → String) (group : List TaggedQuery)
    (p : ParsedFile) (importPath : String) (es : List Edit)
    (h : fileWriterEdits tsPretty group p false importPath = .ok es) :
    ((⟨0, 0, (importStatementFor importPath ++ "\n").data⟩ : Edit) ∈ es ↔
      importExists importPath p.source = false) := by
  have hes : es = visitEdits group p ++ importInsertEdits importPath p.source := by
    rw [fileWriterEdits] at h
    cases hq : queryInterfaces tsPretty group with
    | error e => rw [hq] at h; cases h
    | ok d =>
      rw [hq] at h
      simp only [Bool.false_eq_true, if_false, Except.map] at h
      cases h
      rfl
  have hnotvis : (⟨0, 0, (importStatementFor importPath ++ "\n").data⟩ : Edit) ∉
      visitEdits group p := by
    intro hmem
    rw [visitEdits] at hmem
    obtain ⟨node, hnode, hible⟩ := List.mem_flatMap.mp hmem
    rcases visitNode_replacement hible with hnil | hhead
    · have := importStatement_head importPath
      rw [show (⟨0, 0, (importStatementFor importPath ++ "\n").data⟩ : Edit).replacement =
        (importStatementFor importPath ++ "\n").data from rfl] at hnil
      rw [hnil] at this
      cases this
    · have := importStatement_head importPath
      rw [show (⟨0, 0, (importStatementFor importPath ++ "\n").data⟩ : Edit).replacement =
        (importStatementFor importPath ++ "\n").data from rfl] at hhead
      rw [this] at hhead
      cases hhead
  subst hes
  cases himp : importExists importPath p.source with
  | false =>
    simp only [importInsertEdits, himp, Bool.false_eq_true, if_false]
    constructor
    · intro _
      trivial
    · intro _
      exact List.mem_append_right _ (List.mem_singleton.mpr rfl)
  | true =>
    simp only [importInsertEdits, himp, if_true, List.append_nil]
    constructor
    · intro hmem
      exact absurd hmem hnotvis
    · intro hfalse
      exact Bool.noConfusion hfalse

/-- C9, witness: on an empty source with no prior import, the insertion edit is
present (membership obtained through the iff at a concrete input). -/
theorem c9_witness : importExists "dest.ts" ("" : String).data = false :=
  (c9_thm id [] ⟨("" : String).data, []⟩ "dest.ts"
      [⟨0, 0, (importStatementFor "dest.ts" ++ "\n").data⟩] rfl).mp
    (List.mem_singleton.mpr rfl)

/-- C4, amended: a not-null field, or one typed `any` or `unknown`, renders as
its bare base type; any other (nullable) field renders as the parenthesised
base type united with null, `(t) | null`. On the spec scenario the body
contains `"foo": number` and `"bar": (string) | null`. -/
theorem c4_thm (f : Field) :
    (f.notNull = true ∨ f.typescript = "any" ∨ f.typescript = "unknown" →
      fieldType f = f.typescript) ∧
    (f.notNull = false → f.typescript ≠ "any" → f.typescript ≠ "unknown" →
      fieldType f = "(" ++ f.typescript ++ ") | null") ∧
    jsIncludes (interfaceBody qFooBar).data ("\"foo\": number").data = true ∧
    jsIncludes (interfaceBody qFooBar).data ("\"bar\": (string) | null").data = true := by
  refine ⟨?_, ?_, by decide, by decide⟩
  · intro h
    rcases h with h | h | h <;> simp [fieldType, h]
  · intro h1 h2 h3
    rw [fieldType, if_neg (by simp [h1, h2, h3])]

/-- C4, witness for the amended theorem at the two scenario fields: `foo`
renders as `number`, `bar` renders as `(string) | null`. -/
theorem c4_witness :
    fieldType fooField = fooField.typescript ∧
    fieldType barField = "(" ++ barField.typescript ++ ") | null" :=
  ⟨(c4_thm fooField).1 (Or.inl rfl),
   (c4_thm barField).2.1 rfl (by decide) (by decide)⟩

-- C8: correctness of back-to-front splicing for non-overlapping edits.

theorem chainedFrom_pairwise {len : Nat} :
    ∀ {pos : Nat} {es : List Edit}, chainedFrom len pos es = true →
      es.Pairwise (fun a b => a.stop < b.stop) := by
  intro pos es
  induction es generalizing pos with
  | nil => intro _; exact List.Pairwise.nil
  | cons e rest ih =>
    intro h
    simp only [chainedFrom, Bool.and_eq_true, decide_eq_true_eq, List.all_eq_true] at h
    obtain ⟨⟨⟨⟨hpos, hse⟩, hsl⟩, hall⟩, hrest⟩ := h
    exact List.Pairwise.cons (fun b hb => by simpa using hall b hb) (ih hrest)

theorem foldr_splice_chained (text : List Char) :
    ∀ (es : List Edit) (pos : Nat), chainedFrom text.length pos es = true →
      es.foldr (fun e t => splice t e) text = patchedFrom text 0 es := by
  intro es
  induction es with
  | nil => intro pos h; rfl
  | cons e rest ih =>
    intro pos h
    simp only [chainedFrom, Bool.and_eq_true, decide_eq_true_eq, List.all_eq_true] at h
    obtain ⟨⟨⟨⟨hpos, hse⟩, hsl⟩, hall⟩, hrest⟩ := h
    rw [List.foldr_cons]
    rw [ih e.stop hrest]
    cases rest with
    | nil =>
      show splice (text.drop 0) e =
        (text.take e.start).drop 0 ++ e.replacement ++ patchedFrom text e.stop []
      rw [List.drop_zero, List.drop_zero]
      rfl
    | cons e2 rest2 =>
      simp only [chainedFrom, Bool.and_eq_true, decide_eq_true_eq, List.all_eq_true] at hrest
      obtain ⟨⟨⟨⟨h2pos, h2se⟩, h2sl⟩, h2all⟩, h2rest⟩ := hrest
      have hlenA : (text.take e2.start).length = e2.start := by
        rw [List.length_take]
        exact Nat.min_eq_left (le_trans h2se h2sl)
      have hsA : e.start ≤ (text.take e2.start).length := by
        rw [hlenA]
        exact le_trans hse h2pos
      have heA : e.stop ≤ (text.take e2.start).length := by
        rw [hlenA]
        exact h2pos
      show splice ((text.take e2.start).drop 0 ++ e2.replacement ++
          patchedFrom text e2.stop rest2) e =
        (text.take e.start).drop 0 ++ e.replacement ++ patchedFrom text e.stop (e2 :: rest2)
      rw [List.drop_zero, List.drop_zero, splice,
        List.append_assoc (text.take e2.start) e2.replacement (patchedFrom text e2.stop rest2),
        List.take_append_of_le_length hsA, List.drop_append_of_le_length heA,
        List.take_take, Nat.min_eq_left (le_trans hse h2pos)]
      show text.take e.start ++ e.replacement ++
          ((text.take e2.start).drop e.stop ++ (e2.replacement ++ patchedFrom text e2.stop rest2)) =
        text.take e.start ++ e.replacement ++
          ((text.take e2.start).drop e.stop ++ e2.replacement ++ patchedFrom text e2.stop rest2)
      simp [List.append_assoc]

/-- C8, amended: overlapping edits are not detected - the splice loop silently
produces output (see the counterexample). For pairwise non-overlapping,
in-bounds edits, applying them sorted in descending order of end offset yields
the text with each scheduled span independently replaced (the
`patchedFrom` rendering: untouched text between spans, replacements inside). -/
theorem c8_thm (text : List Char) (es : List Edit)
    (h : chainedFrom text.length 0 es = true) :
    applyEdits text es = patchedFrom text 0 es := by
  have hpair : es.Pairwise (fun a b => a.stop < b.stop) := chainedFrom_pairwise h
  have hsort : sortOn (fun e => -((e.stop : Nat) : Int)) es = es.reverse := by
    refine sortOn_strictDesc _ (hpair.imp (fun hab => ?_))
    have : ((_ : Nat) : Int) < _ := Int.ofNat_lt.mpr hab
    omega
  rw [applyEdits, hsort, List.foldl_reverse]
  exact foldr_splice_chained text es 0 h

/-- C8, witness for the amended theorem: two disjoint edits on `abcdef` splice
to the expected segment-by-segment rendering, concretely `aXYcZf`. -/
theorem c8_witness :
    applyEdits "abcdef".data [⟨1, 2, "XY".data⟩, ⟨4, 5, "Z".data⟩] =
      patchedFrom "abcdef".data 0 [⟨1, 2, "XY".data⟩, ⟨4, 5, "Z".data⟩] ∧
    patchedFrom "abcdef".data 0 [⟨1, 2, "XY".data⟩, ⟨4, 5, "Z".data⟩] = "aXYcdZf".data :=
  ⟨c8_thm "abcdef".data [⟨1, 2, "XY".data⟩, ⟨4, 5, "Z".data⟩] (by decide), by decide⟩

-- C6: idempotence of the patcher on its own output.

theorem isPrefixOf_append_self : ∀ (l t : List Char), l.isPrefixOf (l ++ t) = true
  | [], _ => by simp [List.isPrefixOf]
  | c :: cs, t => by
    rw [List.cons_append, List.isPrefixOf_cons₂_self, isPrefixOf_append_self cs t]

theorem jsIncludes_append_self (n rest : List Char) : jsIncludes (n ++ rest) n = true := by
  cases n with
  | nil =>
    cases rest with
    | nil => rfl
    | cons c t => simp [jsIncludes, List.isPrefixOf]
  | cons c cs =>
    rw [List.cons_append, jsIncludes, ← List.cons_append, isPrefixOf_append_self]
    exact Bool.true_or _

/-- C6: re-running the patcher on its own output is idempotent. First half
(separate destination file): when the first run inserts the import statement,
its output starts with that statement, so a second run over the output computes
no import insertion - no duplicate import line appears. Second half (same-file
destination): when the parse reports one generated `queries` region (and no
other visit edit, the call sites being already rewritten), the output is the
source with that whole region deleted and exactly one fresh module appended at
the end - the region is replaced, never duplicated. -/
theorem c6_thm (tsPretty : String → String) (group : List TaggedQuery) (p : ParsedFile)
    (importPath : String) :
    (∀ es, fileWriterEdits tsPretty group p false importPath = .ok es →
      importExists importPath p.source = false →
      importInsertEdits importPath (applyEdits p.source es) = []) ∧
    (∀ es s0 e0 m, fileWriterEdits tsPretty group p true importPath = .ok es →
      visitEdits group p = [⟨s0, e0, []⟩] →
      s0 ≤ e0 → e0 ≤ p.source.length →
      queriesModule tsPretty group = .ok m →
      applyEdits p.source es =
        p.source.take s0 ++ p.source.drop e0 ++ m.data) := by
  constructor
  · intro es hes himp
    have hes2 : es = visitEdits group p ++
        [⟨0, 0, (importStatementFor importPath ++ "\n").data⟩] := by
      rw [fileWriterEdits] at hes
      cases hq : queryInterfaces tsPretty group with
      | error e => rw [hq] at hes; cases hes
      | ok d =>
        rw [hq] at hes
        simp only [Bool.false_eq_true, if_false, Except.map, Except.ok.injEq] at hes
        rw [← hes, importInsertEdits, if_neg (by simp [himp])]
    subst hes2
    rw [applyEdits]
    rw [sortOn_append_last _ _ (fun y hy => by
      show -((y.stop : Nat) : Int) ≤ -(((0 : Nat) : Nat) : Int)
      omega)]
    rw [List.foldl_append, List.foldl_cons, List.foldl_nil, splice]
    simp only [List.take_zero, List.drop_zero, List.nil_append]
    have hX : importExists importPath ((importStatementFor importPath ++ "\n").data ++
        List.foldl splice p.source
          (sortOn (fun e => -((e.stop : Nat) : Int)) (visitEdits group p))) = true := by
      simp only [importExists]
      rw [String.data_append, List.append_assoc, jsIncludes_append_self]
      simp
    rw [importInsertEdits, if_pos hX]
  · intro es s0 e0 m hes hvis hse hel hqm
    have hes2 : es = [⟨s0, e0, ([] : List Char)⟩,
        ⟨p.source.length, p.source.length, m.data⟩] := by
      rw [fileWriterEdits] at hes
      simp only [if_true, hqm, Except.map, Except.ok.injEq] at hes
      rw [hvis] at hes
      rw [← hes]
      rfl
    subst hes2
    rw [applyEdits]
    rcases Nat.lt_or_eq_of_le hel with hlt | heq
    · have hs : sortOn (fun e : Edit => -((e.stop : Nat) : Int))
          ([⟨s0, e0, ([] : List Char)⟩,
            ⟨p.source.length, p.source.length, m.data⟩] : List Edit) =
          ([⟨p.source.length, p.source.length, m.data⟩,
            ⟨s0, e0, ([] : List Char)⟩] : List Edit) := by
        dsimp only [sortOn, insertSorted]
        rw [if_neg (by omega)]
      rw [hs, List.foldl_cons, List.foldl_cons, List.foldl_nil, splice, splice]
      rw [List.take_length, List.drop_length]
      simp only [List.append_nil, List.nil_append]
      rw [List.take_append_of_le_length (le_trans hse hel),
        List.drop_append_of_le_length (Nat.le_of_lt hlt)]
      simp [List.append_assoc]
    · have hs : sortOn (fun e : Edit => -((e.stop : Nat) : Int))
          ([⟨s0, e0, ([] : List Char)⟩,
            ⟨p.source.length, p.source.length, m.data⟩] : List Edit) =
          ([⟨s0, e0, ([] : List Char)⟩,
            ⟨p.source.length, p.source.length, m.data⟩] : List Edit) := by
        dsimp only [sortOn, insertSorted]
        rw [if_pos (by omega)]
      rw [hs, List.foldl_cons, List.foldl_cons, List.foldl_nil, splice, splice]
      rw [heq, List.drop_length]
      simp only [List.append_nil, List.nil_append]
      have hxlen : (p.source.take s0).length ≤ p.source.length := by
        rw [List.length_take]
        exact Nat.min_le_right _ _
      rw [List.take_of_length_le hxlen, List.drop_eq_nil_of_le hxlen]
      simp

/-- C6, witness: both halves applied at concrete inputs. First, on an empty
file the run inserts the import and a second pass over the output schedules
no insertion of the import. Second, on the source `abc` whose parse reports
one `queries` region spanning `(0, 2)`, the output is that region deleted with
the fresh module appended. -/
theorem c6_witness :
    importInsertEdits "dest.ts"
        (applyEdits ("" : String).data
          [⟨0, 0, (importStatementFor "dest.ts" ++ "\n").data⟩]) = [] ∧
    applyEdits ("abc" : String).data
        [⟨0, 2, ([] : List Char)⟩,
         ⟨3, 3, ("\n" ++ ("\n    module queries \x7b\n      " ++ "" ++ "\n    \x7d\n  ")).data⟩] =
      ("abc" : String).data.take 0 ++ ("abc" : String).data.drop 2 ++
        ("\n" ++ ("\n    module queries \x7b\n      " ++ "" ++ "\n    \x7d\n  ")).data :=
  ⟨(c6_thm id [] ⟨("" : String).data, []⟩ "dest.ts").1
      [⟨0, 0, (importStatementFor "dest.ts" ++ "\n").data⟩] rfl rfl,
   (c6_thm id [] ⟨("abc" : String).data, [.moduleDecl "queries" 0 2]⟩ "dest.ts").2
      [⟨0, 2, ([] : List Char)⟩,
       ⟨3, 3, ("\n" ++ ("\n    module queries \x7b\n      " ++ "" ++ "\n    \x7d\n  ")).data⟩]
      0 2 ("\n" ++ ("\n    module queries \x7b\n      " ++ "" ++ "\n    \x7d\n  "))
      rfl rfl (by decide) (by decide) rfl⟩

end Typegen
